import Mathlib

/-
Formal model of src/src/mastra/workflows/multi-city-weather-workflow.ts.

The TypeScript workflow is embedded shallowly:
- JS numbers are modelled as rationals; the scoring adjustments are integers.
- Strings are Lean strings; toLowerCase is modelled as mapping Char.toLower
  over the character list, and String.prototype.includes as a substring scan.
- The regex /(-?\d+(?:\.\d+)?)/ used by the scorer is modelled by an explicit
  leftmost greedy matcher over character lists, and parseFloat on its matches
  by an exact decimal parser into the rationals.
- The fallible step bodies (network calls, empty-input indexing) are modelled
  with Option: a none result stands for a thrown error.
-/

/- ### Condition decoder (lines 20-35 of the source) -/

def weatherConditions : List (Int × String) :=
  [(0, "Clear sky"), (1, "Mainly clear"), (2, "Partly cloudy"), (3, "Overcast"),
   (45, "Foggy"), (51, "Light drizzle"), (61, "Slight rain"), (63, "Moderate rain"),
   (65, "Heavy rain"), (71, "Slight snow"), (95, "Thunderstorm")]

def getWeatherCondition (code : Int) : String :=
  (weatherConditions.lookup code).getD "Unknown"

/- ### Case-insensitive keyword containment, as condition.toLowerCase().includes(kw) -/

def startsWithChars : List Char → List Char → Bool
  | [], _ => true
  | _ :: _, [] => false
  | p :: ps, c :: cs => p == c && startsWithChars ps cs

def hasSubstr : List Char → List Char → Bool
  | [], pat => startsWithChars pat []
  | c :: rest, pat => startsWithChars pat (c :: rest) || hasSubstr rest pat

def containsLower (s : String) (pat : String) : Bool :=
  hasSubstr (s.data.map Char.toLower) pat.data

/- ### Data model (the zod schemas of the source) -/

structure CityWeather where
  city : String
  temperature : ℚ
  condition : String
  humidity : ℚ

structure ActivityRecommendation where
  city : String
  activities : List String
  weatherSummary : String

structure ScoredCity where
  city : String
  score : Int
  weatherSummary : String
  topActivity : String

structure BestDestinationReport where
  bestCity : String
  reason : String
  allCities : List ScoredCity

/- ### fetch-city-weather step (lines 43-79): geocoding miss short-circuits.
The two network responses are passed in as data: the geocoding response is an
optional result array, the forecast call is an oracle that may fail (none). -/

structure GeoResult where
  latitude : ℚ
  longitude : ℚ
  name : String

structure CurrentWeather where
  temperature_2m : ℚ
  relative_humidity_2m : ℚ
  weathercode : Int

def fetchCityWeather (city : String) (geoResults : Option (List GeoResult))
    (forecast : ℚ → ℚ → Option CurrentWeather) : Option CityWeather :=
  match geoResults.bind List.head? with
  | none => some { city := city, temperature := 0, condition := "Location not found", humidity := 0 }
  | some r =>
    (forecast r.latitude r.longitude).map fun d =>
      { city := r.name
        temperature := d.temperature_2m
        condition := getWeatherCondition d.weathercode
        humidity := d.relative_humidity_2m }

/- ### generate-activity-recommendations step (lines 88-119) -/

def baseActivities (temperature : ℚ) : List String :=
  if 25 < temperature then ["🏖️ Beach or pool visit", "🍦 Get ice cream"]
  else if 15 < temperature then ["🚴 Cycling", "🥾 Hiking", "📸 Outdoor photography"]
  else if 5 < temperature then ["☕ Cozy café visit", "🎨 Museum tour"]
  else ["⛷️ Winter sports", "🏠 Indoor activities"]

def activitiesFor (temperature : ℚ) (condition : String) : List String :=
  let activities := baseActivities temperature
  if containsLower condition "rain" then
    ["🎬 Movie theater", "📚 Library visit", "🎳 Bowling"]
  else if containsLower condition "clear" || containsLower condition "sunny" then
    activities ++ ["🌳 Park picnic", "🌅 Sunset watching"]
  else activities

def generateActivityRecommendations (render : ℚ → String) (w : CityWeather) :
    ActivityRecommendation :=
  { city := w.city
    activities := activitiesFor w.temperature w.condition
    weatherSummary := render w.temperature ++ "°C, " ++ w.condition ++ ", " ++
      render w.humidity ++ "% humidity" }

/- ### The regex temperature extraction of the scorer (lines 202-203).
firstNumMatch implements the leftmost match of /(-?\d+(?:\.\d+)?)/ and
parseNumber the value parseFloat assigns to such a match. -/

def digitVal (c : Char) : ℕ := c.toNat - '0'.toNat

def natOfDigits (ds : List Char) : ℕ := ds.foldl (fun n c => 10 * n + digitVal c) 0

def fracOfDigits (ds : List Char) : ℚ := ds.foldr (fun c q => ((digitVal c : ℚ) + q) / 10) 0

def numTail (cs : List Char) : Option (List Char) :=
  let ds := cs.takeWhile Char.isDigit
  if ds = [] then none
  else
    let rest2 := cs.drop ds.length
    if rest2.head? = some '.' ∧ rest2.tail.takeWhile Char.isDigit ≠ [] then
      some (ds ++ '.' :: rest2.tail.takeWhile Char.isDigit)
    else some ds

def matchNumAt (cs : List Char) : Option (List Char) :=
  if cs.head? = some '-' then (numTail cs.tail).map (fun m => '-' :: m)
  else numTail cs

def firstNumMatch : List Char → Option (List Char)
  | [] => none
  | c :: rest =>
    match matchNumAt (c :: rest) with
    | some m => some m
    | none => firstNumMatch rest

def parseUnsigned (cs : List Char) : ℚ :=
  let ds := cs.takeWhile Char.isDigit
  (natOfDigits ds : ℚ) + fracOfDigits ((cs.drop ds.length).tail.takeWhile Char.isDigit)

def parseNumber (cs : List Char) : ℚ :=
  if cs.head? = some '-' then -parseUnsigned cs.tail else parseUnsigned cs

def extractTemp (s : String) : ℚ :=
  match firstNumMatch s.data with
  | some m => parseNumber m
  | none => 20

/- ### find-best-destination step (lines 196-241) -/

def scoreOf (summary : String) : Int :=
  let temp := extractTemp summary
  let score : Int := 50
  let score := if 18 ≤ temp ∧ temp ≤ 25 then score + 30
    else if 15 ≤ temp ∧ temp ≤ 28 then score + 20
    else if temp < 5 ∨ 35 < temp then score - 20
    else score
  let score := if containsLower summary "clear" then score + 20
    else if containsLower summary "rain" then score - 15
    else if containsLower summary "cloud" then score + 5
    else score
  score

def scoreRec (rec : ActivityRecommendation) : ScoredCity :=
  { city := rec.city
    score := scoreOf rec.weatherSummary
    weatherSummary := rec.weatherSummary
    topActivity := match rec.activities with
      | [] => "Explore the city"
      | a :: _ => if a = "" then "Explore the city" else a }

/-- The sort comparator (a, b) => b.score - a.score: a may stay before b
exactly when the comparator is nonpositive. -/
def scoreLE (a b : ScoredCity) : Bool := decide (b.score ≤ a.score)

def findBestDestination (recs : List ActivityRecommendation) : Option BestDestinationReport :=
  let scoredCities := recs.map scoreRec
  match scoredCities.mergeSort scoreLE with
  | [] => none
  | best :: rest =>
    some { bestCity := best.city
           reason := best.city ++ " has the best weather conditions with " ++
             best.weatherSummary ++ ". Top recommended activity: " ++ best.topActivity
           allCities := best :: rest }

/- ### Spec-side restatement of the scoring rules, following the wording of
the specification (base 50, interval-based temperature adjustment, ordered
keyword adjustment), to be compared with the embedded scorer. -/

def specTempAdj (t : ℚ) : Int :=
  if t ∈ Set.Icc (18 : ℚ) 25 then 30
  else if t ∈ Set.Icc (15 : ℚ) 28 then 20
  else if t < 5 ∨ 35 < t then -20
  else 0

def specCondAdj (s : String) : Int :=
  if containsLower s "clear" then 20
  else if containsLower s "rain" then -15
  else if containsLower s "cloud" then 5
  else 0

def specScore (s : String) : Int := 50 + specTempAdj (extractTemp s) + specCondAdj s

/-- Variant scorer that is handed the raw numeric temperature instead of
re-parsing it out of the summary string. -/
def scoreFromTemp (t : ℚ) (summary : String) : Int :=
  let score : Int := 50
  let score := if 18 ≤ t ∧ t ≤ 25 then score + 30
    else if 15 ≤ t ∧ t ≤ 28 then score + 20
    else if t < 5 ∨ 35 < t then score - 20
    else score
  let score := if containsLower summary "clear" then score + 20
    else if containsLower summary "rain" then score - 15
    else if containsLower summary "cloud" then score + 5
    else score
  score

/- ### Plain decimal renderings of numbers, for the round-trip claim:
a sign, a nonempty integer-digit block, an optional fractional-digit block. -/

def decRender (neg : Bool) (ip frac : List Char) : List Char :=
  (if neg then ['-'] else []) ++ ip ++ (if frac = [] then [] else '.' :: frac)

def decValue (neg : Bool) (ip frac : List Char) : ℚ :=
  (if neg then -1 else 1) * ((natOfDigits ip : ℚ) + fracOfDigits frac)

def decoderOutputs : List String := "Unknown" :: weatherConditions.map Prod.snd

/- ### Theorems -/

/-- Claim C3: every code of the fixed 11-entry table decodes to its exact
label, and every integer code outside the table decodes to "Unknown". -/
theorem getWeatherCondition_spec :
    (getWeatherCondition 0 = "Clear sky" ∧ getWeatherCondition 1 = "Mainly clear" ∧
     getWeatherCondition 2 = "Partly cloudy" ∧ getWeatherCondition 3 = "Overcast" ∧
     getWeatherCondition 45 = "Foggy" ∧ getWeatherCondition 51 = "Light drizzle" ∧
     getWeatherCondition 61 = "Slight rain" ∧ getWeatherCondition 63 = "Moderate rain" ∧
     getWeatherCondition 65 = "Heavy rain" ∧ getWeatherCondition 71 = "Slight snow" ∧
     getWeatherCondition 95 = "Thunderstorm") ∧
    ∀ code : Int, code ∉ ([0, 1, 2, 3, 45, 51, 61, 63, 65, 71, 95] : List Int) →
      getWeatherCondition code = "Unknown" := by
  constructor
  · exact ⟨rfl, rfl, rfl, rfl, rfl, rfl, rfl, rfl, rfl, rfl, rfl⟩
  · intro code h
    simp only [List.mem_cons, List.not_mem_nil, or_false, not_or] at h
    obtain ⟨h0, h1, h2, h3, h45, h51, h61, h63, h65, h71, h95⟩ := h
    simp [getWeatherCondition, weatherConditions, List.lookup,
      beq_eq_false_iff_ne.mpr h0, beq_eq_false_iff_ne.mpr h1, beq_eq_false_iff_ne.mpr h2,
      beq_eq_false_iff_ne.mpr h3, beq_eq_false_iff_ne.mpr h45, beq_eq_false_iff_ne.mpr h51,
      beq_eq_false_iff_ne.mpr h61, beq_eq_false_iff_ne.mpr h63, beq_eq_false_iff_ne.mpr h65,
      beq_eq_false_iff_ne.mpr h71, beq_eq_false_iff_ne.mpr h95]

/-- Witness for C3: the unmapped code 7 decodes to "Unknown". -/
theorem getWeatherCondition_spec_witness : getWeatherCondition 7 = "Unknown" :=
  getWeatherCondition_spec.2 7 (by decide)

/-- Claim C4: a condition containing "rain" (case-insensitively) yields
exactly the indoor triple regardless of temperature; otherwise a condition
containing "clear" or "sunny" yields the temperature-bracket base set with
the picnic/sunset pair appended. -/
theorem activities_rain_clear (t : ℚ) (cond : String) :
    (containsLower cond "rain" = true →
      activitiesFor t cond = ["🎬 Movie theater", "📚 Library visit", "🎳 Bowling"]) ∧
    (containsLower cond "rain" = false →
      (containsLower cond "clear" = true ∨ containsLower cond "sunny" = true) →
      activitiesFor t cond = baseActivities t ++ ["🌳 Park picnic", "🌅 Sunset watching"]) := by
  constructor
  · intro h
    simp [activitiesFor, h]
  · intro h hcs
    rcases hcs with h1 | h1 <;> simp [activitiesFor, h, h1]

/-- Witness for C4 at temperature 30 with "Heavy rain" and temperature 10
with "Clear sky". -/
theorem activities_rain_clear_witness :
    activitiesFor 30 "Heavy rain" = ["🎬 Movie theater", "📚 Library visit", "🎳 Bowling"] ∧
    activitiesFor 10 "Clear sky" = baseActivities 10 ++ ["🌳 Park picnic", "🌅 Sunset watching"] :=
  ⟨(activities_rain_clear 30 "Heavy rain").1 (by decide),
   (activities_rain_clear 10 "Clear sky").2 (by decide) (Or.inl (by decide))⟩

/-- Claim C5: without a rain override the output extends the base set, and
the base set is chosen by the mutually exclusive temperature brackets,
evaluated high to low. -/
theorem baseActivities_brackets (t : ℚ) (cond : String)
    (hrain : containsLower cond "rain" = false) :
    (∃ extra, activitiesFor t cond = baseActivities t ++ extra) ∧
    (25 < t → baseActivities t = ["🏖️ Beach or pool visit", "🍦 Get ice cream"]) ∧
    (15 < t ∧ t ≤ 25 → baseActivities t = ["🚴 Cycling", "🥾 Hiking", "📸 Outdoor photography"]) ∧
    (5 < t ∧ t ≤ 15 → baseActivities t = ["☕ Cozy café visit", "🎨 Museum tour"]) ∧
    (t ≤ 5 → baseActivities t = ["⛷️ Winter sports", "🏠 Indoor activities"]) := by
  refine ⟨?_, ?_, ?_, ?_, ?_⟩
  · unfold activitiesFor
    simp only [hrain, Bool.false_eq_true, if_false]
    by_cases h : (containsLower cond "clear" || containsLower cond "sunny") = true
    · rw [if_pos h]
      exact ⟨_, rfl⟩
    · rw [if_neg h]
      exact ⟨[], (List.append_nil _).symm⟩
  · intro h
    rw [baseActivities, if_pos h]
  · rintro ⟨h1, h2⟩
    rw [baseActivities, if_neg (by linarith), if_pos h1]
  · rintro ⟨h1, h2⟩
    rw [baseActivities, if_neg (by linarith), if_neg (by linarith), if_pos h1]
  · intro h
    rw [baseActivities, if_neg (by linarith), if_neg (by linarith), if_neg (by linarith)]

/-- Witness for C5 at temperature 20 with condition "Overcast". -/
theorem baseActivities_brackets_witness :
    (∃ extra, activitiesFor 20 "Overcast" = baseActivities 20 ++ extra) ∧
    baseActivities 20 = ["🚴 Cycling", "🥾 Hiking", "📸 Outdoor photography"] := by
  have h := baseActivities_brackets 20 "Overcast" (by decide)
  exact ⟨h.1, h.2.2.1 ⟨by norm_num, by norm_num⟩⟩

/-- Claim C6: the destination scorer on an empty input sequence produces no
report: taking the first element of the empty sorted sequence fails. -/
theorem findBestDestination_empty : findBestDestination [] = none := by
  simp [findBestDestination, List.mergeSort_nil]

/-- Claim C7: when geocoding yields no result, the fetch step returns the
sentinel record for the original city name as a normal value, for every
forecast oracle (so in particular without consulting the forecast call). -/
theorem fetchCityWeather_sentinel (city : String) (geoResults : Option (List GeoResult))
    (forecast : ℚ → ℚ → Option CurrentWeather)
    (h : geoResults.bind List.head? = none) :
    fetchCityWeather city geoResults forecast =
      some { city := city, temperature := 0, condition := "Location not found", humidity := 0 } := by
  unfold fetchCityWeather
  rw [h]

/-- Witness for C7: a miss on "Atlantis" with an always-failing forecast
oracle still returns the sentinel record. -/
theorem fetchCityWeather_sentinel_witness :
    fetchCityWeather "Atlantis" none (fun _ _ => none) =
      some { city := "Atlantis", temperature := 0, condition := "Location not found",
             humidity := 0 } :=
  fetchCityWeather_sentinel "Atlantis" none (fun _ _ => none) rfl

/-- Claim C1: the embedded scorer computes exactly 50 plus the interval-based
temperature adjustment plus the ordered keyword adjustment described by the
specification, on the temperature extracted as the first signed decimal
number of the summary (default 20). -/
theorem scoreRec_eq_specScore (rec : ActivityRecommendation) :
    (scoreRec rec).score = specScore rec.weatherSummary := by
  show scoreOf rec.weatherSummary = specScore rec.weatherSummary
  simp only [scoreOf, specScore, specTempAdj, specCondAdj, Set.mem_Icc]
  split_ifs <;> omega

/-- Claim C9: every score the destination scorer assigns lies in [15, 100]. -/
theorem score_bounds (rec : ActivityRecommendation) :
    15 ≤ (scoreRec rec).score ∧ (scoreRec rec).score ≤ 100 := by
  show 15 ≤ scoreOf rec.weatherSummary ∧ scoreOf rec.weatherSummary ≤ 100
  simp only [scoreOf]
  split_ifs <;> omega

/- ### Helper lemmas for the sorted-report claim -/

theorem scoreLE_trans_fact (a b c : ScoredCity) (h1 : scoreLE a b = true)
    (h2 : scoreLE b c = true) : scoreLE a c = true := by
  simp only [scoreLE, decide_eq_true_eq] at *
  omega

theorem scoreLE_total_fact (a b : ScoredCity) : (scoreLE a b || scoreLE b a) = true := by
  simp only [scoreLE, Bool.or_eq_true, decide_eq_true_eq]
  omega

theorem find_eq_head_filter {α : Type} (p : α → Bool) (l : List α) :
    l.find? p = (l.filter p).head? := by
  induction l with
  | nil => rfl
  | cons a l ih =>
    rw [List.find?_cons, List.filter_cons]
    cases h : p a with
    | true => rfl
    | false => exact ih

theorem find_congr_fact {α : Type} {p q : α → Bool} {l : List α}
    (h : ∀ x ∈ l, p x = q x) : l.find? p = l.find? q := by
  rw [find_eq_head_filter, find_eq_head_filter, List.filter_congr h]

/-- Claim C2: on nonempty input the report exists; allCities has the input
length, is sorted descending by score, keeps tied entries in input order
(every score class filters to the same list as in the input), and bestCity is
the city of the first sorted entry, which is the earliest input entry of
maximal score. -/
theorem findBestDestination_spec (l : List ActivityRecommendation) (hl : l ≠ []) :
    ∃ report, findBestDestination l = some report ∧
      report.allCities.length = l.length ∧
      report.allCities.Pairwise (fun a b => b.score ≤ a.score) ∧
      (∀ s : Int, report.allCities.filter (fun c => decide (c.score = s)) =
        (l.map scoreRec).filter (fun c => decide (c.score = s))) ∧
      ∃ best, report.allCities.head? = some best ∧ report.bestCity = best.city ∧
        (l.map scoreRec).find?
          (fun c => (l.map scoreRec).all (fun y => decide (y.score ≤ c.score))) = some best := by
  have hperm : ((l.map scoreRec).mergeSort scoreLE).Perm (l.map scoreRec) :=
    List.mergeSort_perm (l.map scoreRec) scoreLE
  have hsorted : ((l.map scoreRec).mergeSort scoreLE).Pairwise (fun a b => scoreLE a b = true) :=
    List.sorted_mergeSort scoreLE_trans_fact scoreLE_total_fact (l.map scoreRec)
  have hlen : ((l.map scoreRec).mergeSort scoreLE).length = l.length :=
    hperm.length_eq.trans (List.length_map l scoreRec)
  obtain ⟨best, rest, hbr⟩ : ∃ b r, (l.map scoreRec).mergeSort scoreLE = b :: r := by
    cases hms : (l.map scoreRec).mergeSort scoreLE with
    | nil =>
      rw [hms] at hlen
      exact absurd (List.length_eq_zero.mp hlen.symm) hl
    | cons b r => exact ⟨b, r, rfl⟩
  have hfiltereq : ∀ s : Int,
      ((l.map scoreRec).mergeSort scoreLE).filter (fun c => decide (c.score = s)) =
        (l.map scoreRec).filter (fun c => decide (c.score = s)) := by
    intro s
    have hpair : ((l.map scoreRec).filter (fun c => decide (c.score = s))).Pairwise
        (fun a b => scoreLE a b = true) := by
      apply List.pairwise_of_forall_mem_list
      intro a ha b hb
      have ha2 := (List.mem_filter.mp ha).2
      have hb2 := (List.mem_filter.mp hb).2
      simp only [decide_eq_true_eq] at ha2 hb2
      simp only [scoreLE, ha2, hb2, decide_eq_true_eq]
      omega
    have hstable : ((l.map scoreRec).filter (fun c => decide (c.score = s))).Sublist
        ((l.map scoreRec).mergeSort scoreLE) :=
      List.sublist_mergeSort scoreLE_trans_fact scoreLE_total_fact hpair
        (List.filter_sublist (l.map scoreRec))
    have hidem : ((l.map scoreRec).filter (fun c => decide (c.score = s))).filter
        (fun c => decide (c.score = s)) =
        (l.map scoreRec).filter (fun c => decide (c.score = s)) := by
      apply List.filter_eq_self.mpr
      intro a ha
      exact (List.mem_filter.mp ha).2
    have hfsub : ((l.map scoreRec).filter (fun c => decide (c.score = s))).Sublist
        (((l.map scoreRec).mergeSort scoreLE).filter (fun c => decide (c.score = s))) := by
      have := hstable.filter (fun c => decide (c.score = s))
      rwa [hidem] at this
    have hpermf := hperm.filter (fun c => decide (c.score = s))
    exact (hfsub.eq_of_length hpermf.length_eq.symm).symm
  refine ⟨{ bestCity := best.city
            reason := best.city ++ " has the best weather conditions with " ++
              best.weatherSummary ++ ". Top recommended activity: " ++ best.topActivity
            allCities := best :: rest }, ?_, ?_, ?_, ?_, ?_⟩
  · have hred : findBestDestination l = match (l.map scoreRec).mergeSort scoreLE with
      | [] => none
      | best :: rest =>
        some { bestCity := best.city
               reason := best.city ++ " has the best weather conditions with " ++
                 best.weatherSummary ++ ". Top recommended activity: " ++ best.topActivity
               allCities := best :: rest } := rfl
    rw [hred, hbr]
  · simpa [hbr] using hlen
  · have := hbr ▸ hsorted
    exact this.imp (fun h => by simpa [scoreLE] using h)
  · intro s
    have := hfiltereq s
    rw [hbr] at this
    exact this
  · have hbestmem : best ∈ l.map scoreRec :=
      hperm.mem_iff.mp (hbr ▸ List.mem_cons_self best rest)
    have hmax : ∀ y ∈ l.map scoreRec, y.score ≤ best.score := by
      intro y hy
      have hy2 : y ∈ best :: rest := hbr ▸ hperm.mem_iff.mpr hy
      rcases List.mem_cons.mp hy2 with h | h
      · rw [h]
      · have := List.rel_of_pairwise_cons (hbr ▸ hsorted) h
        simpa [scoreLE] using this
    have hq : ∀ x ∈ l.map scoreRec,
        ((l.map scoreRec).all (fun y => decide (y.score ≤ x.score))) =
          decide (x.score = best.score) := by
      intro x hx
      by_cases hx2 : x.score = best.score
      · rw [decide_eq_true hx2]
        rw [List.all_eq_true]
        intro y hy
        have := hmax y hy
        simp only [decide_eq_true_eq]
        omega
      · have h1 : decide (x.score = best.score) = false := decide_eq_false hx2
        rw [h1]
        rw [List.all_eq_false]
        refine ⟨best, hbestmem, ?_⟩
        have := hmax x hx
        simp only [decide_eq_true_eq]
        omega
    have hfind : (l.map scoreRec).find?
        (fun c => (l.map scoreRec).all (fun y => decide (y.score ≤ c.score))) =
        (l.map scoreRec).find? (fun c => decide (c.score = best.score)) :=
      find_congr_fact hq
    refine ⟨best, rfl, rfl, ?_⟩
    rw [hfind, find_eq_head_filter, ← hfiltereq best.score, hbr, List.filter_cons,
      decide_eq_true (rfl : best.score = best.score)]
    rfl

/-- Witness for C2 on a concrete two-city input. -/
theorem findBestDestination_spec_witness :
    ∃ report, findBestDestination
      [⟨"Paris", ["a"], "20°C, Clear sky, 50% humidity"⟩,
       ⟨"Tokyo", ["b"], "20°C, Heavy rain, 80% humidity"⟩] = some report ∧
      report.allCities.length = 2 := by
  obtain ⟨r, h1, h2, -⟩ := findBestDestination_spec
    [⟨"Paris", ["a"], "20°C, Clear sky, 50% humidity"⟩,
     ⟨"Tokyo", ["b"], "20°C, Heavy rain, 80% humidity"⟩] (List.cons_ne_nil _ _)
  exact ⟨r, h1, h2⟩

/- ### Helper lemmas for the temperature round-trip claim -/

theorem takeWhileAppendAll {α : Type} (p : α → Bool) (l r : List α)
    (h : ∀ c ∈ l, p c = true) : (l ++ r).takeWhile p = l ++ r.takeWhile p := by
  induction l with
  | nil => simp
  | cons a l ih =>
    have ha := h a (List.mem_cons_self a l)
    rw [List.cons_append, List.takeWhile_cons, if_pos ha,
      ih (fun c hc => h c (List.mem_cons_of_mem a hc)), List.cons_append]

theorem takeWhileAll {α : Type} (p : α → Bool) (l : List α)
    (h : ∀ c ∈ l, p c = true) : l.takeWhile p = l := by
  have := takeWhileAppendAll p l [] h
  simpa using this

theorem numTail_eq (cs : List Char) :
    numTail cs = if cs.takeWhile Char.isDigit = [] then none
      else if (cs.drop (cs.takeWhile Char.isDigit).length).head? = some '.' ∧
          (cs.drop (cs.takeWhile Char.isDigit).length).tail.takeWhile Char.isDigit ≠ [] then
        some (cs.takeWhile Char.isDigit ++ '.' ::
          (cs.drop (cs.takeWhile Char.isDigit).length).tail.takeWhile Char.isDigit)
      else some (cs.takeWhile Char.isDigit) := rfl

theorem numTail_flat (ip r : List Char) (hip : ip ≠ [])
    (hd : ∀ c ∈ ip, c.isDigit = true)
    (hr : r.takeWhile Char.isDigit = []) (hrdot : r.head? ≠ some '.') :
    numTail (ip ++ r) = some ip := by
  have htw : (ip ++ r).takeWhile Char.isDigit = ip := by
    rw [takeWhileAppendAll _ _ _ hd, hr, List.append_nil]
  rw [numTail_eq, htw, if_neg hip, List.drop_left, if_neg (fun h => hrdot h.1)]

theorem numTail_dotted (ip frac r : List Char) (hip : ip ≠ []) (hfrac : frac ≠ [])
    (hd : ∀ c ∈ ip, c.isDigit = true) (hfd : ∀ c ∈ frac, c.isDigit = true)
    (hr : r.takeWhile Char.isDigit = []) :
    numTail (ip ++ '.' :: (frac ++ r)) = some (ip ++ '.' :: frac) := by
  have hdot : ('.' :: (frac ++ r)).takeWhile Char.isDigit = [] := by
    rw [List.takeWhile_cons, if_neg]
    intro h
    exact absurd h (by decide)
  have htw : (ip ++ '.' :: (frac ++ r)).takeWhile Char.isDigit = ip := by
    rw [takeWhileAppendAll _ _ _ hd, hdot, List.append_nil]
  have htw2 : (frac ++ r).takeWhile Char.isDigit = frac := by
    rw [takeWhileAppendAll _ _ _ hfd, hr, List.append_nil]
  rw [numTail_eq, htw, if_neg hip, List.drop_left]
  simp only [List.head?_cons, List.tail_cons, htw2]
  rw [if_pos ⟨trivial, hfrac⟩]

theorem numTail_body (ip frac r : List Char) (hip : ip ≠ [])
    (hd : ∀ c ∈ ip, c.isDigit = true) (hfd : ∀ c ∈ frac, c.isDigit = true)
    (hr : r.takeWhile Char.isDigit = []) (hrdot : r.head? ≠ some '.') :
    numTail ((ip ++ (if frac = [] then [] else '.' :: frac)) ++ r) =
      some (ip ++ (if frac = [] then [] else '.' :: frac)) := by
  by_cases hfr : frac = []
  · rw [if_pos hfr, List.append_nil, numTail_flat ip r hip hd hr hrdot]
  · rw [if_neg hfr, List.append_assoc, List.cons_append,
      numTail_dotted ip frac r hip hfr hd hfd hr]

theorem headAppendNeDash (ip x : List Char) (hip : ip ≠ [])
    (hd : ∀ c ∈ ip, c.isDigit = true) : (ip ++ x).head? ≠ some '-' := by
  cases ip with
  | nil => exact absurd rfl hip
  | cons d ip' =>
    rw [List.cons_append, List.head?_cons]
    intro h
    have hdd : d = '-' := by injection h
    have := hd d (List.mem_cons_self d ip')
    rw [hdd] at this
    exact absurd this (by decide)

theorem matchNumAt_eq (cs : List Char) :
    matchNumAt cs = if cs.head? = some '-' then (numTail cs.tail).map (fun m => '-' :: m)
      else numTail cs := rfl

theorem matchNumAt_render (neg : Bool) (ip frac r : List Char) (hip : ip ≠ [])
    (hd : ∀ c ∈ ip, c.isDigit = true) (hfd : ∀ c ∈ frac, c.isDigit = true)
    (hr : r.takeWhile Char.isDigit = []) (hrdot : r.head? ≠ some '.') :
    matchNumAt (decRender neg ip frac ++ r) = some (decRender neg ip frac) := by
  cases neg with
  | false =>
    simp only [decRender, Bool.false_eq_true, if_false, List.nil_append]
    rw [matchNumAt_eq, if_neg]
    · exact numTail_body ip frac r hip hd hfd hr hrdot
    · rw [List.append_assoc]
      exact headAppendNeDash ip _ hip hd
  | true =>
    simp only [decRender, if_true, List.singleton_append, List.cons_append, List.nil_append]
    rw [matchNumAt_eq, List.head?_cons, if_pos rfl, List.tail_cons,
      numTail_body ip frac r hip hd hfd hr hrdot]
    rfl

theorem firstNumMatch_cons (c : Char) (cs : List Char) :
    firstNumMatch (c :: cs) = match matchNumAt (c :: cs) with
      | some m => some m
      | none => firstNumMatch cs := rfl

theorem firstNumMatch_render (neg : Bool) (ip frac r : List Char) (hip : ip ≠ [])
    (hd : ∀ c ∈ ip, c.isDigit = true) (hfd : ∀ c ∈ frac, c.isDigit = true)
    (hr : r.takeWhile Char.isDigit = []) (hrdot : r.head? ≠ some '.') :
    firstNumMatch (decRender neg ip frac ++ r) = some (decRender neg ip frac) := by
  have hmatch := matchNumAt_render neg ip frac r hip hd hfd hr hrdot
  obtain ⟨c, cs, hcons⟩ : ∃ c cs, decRender neg ip frac ++ r = c :: cs := by
    cases hdr : decRender neg ip frac ++ r with
    | nil =>
      exfalso
      cases neg with
      | false =>
        simp only [decRender, Bool.false_eq_true, if_false, List.nil_append] at hdr
        rcases List.append_eq_nil.mp hdr with ⟨h1, -⟩
        exact hip (List.append_eq_nil.mp h1).1
      | true =>
        simp only [decRender, if_true, List.singleton_append, List.cons_append] at hdr
        exact List.cons_ne_nil _ _ hdr
    | cons c cs => exact ⟨c, cs, rfl⟩
  rw [hcons] at hmatch ⊢
  rw [firstNumMatch_cons, hmatch]

theorem parseUnsigned_eq (cs : List Char) :
    parseUnsigned cs = (natOfDigits (cs.takeWhile Char.isDigit) : ℚ) +
      fracOfDigits ((cs.drop (cs.takeWhile Char.isDigit).length).tail.takeWhile Char.isDigit) :=
  rfl

theorem fracOfDigits_nil : fracOfDigits [] = 0 := rfl

theorem parseUnsigned_body (ip frac : List Char) (_hip : ip ≠ [])
    (hd : ∀ c ∈ ip, c.isDigit = true) (hfd : ∀ c ∈ frac, c.isDigit = true) :
    parseUnsigned (ip ++ (if frac = [] then [] else '.' :: frac)) =
      (natOfDigits ip : ℚ) + fracOfDigits frac := by
  by_cases hfr : frac = []
  · rw [if_pos hfr, List.append_nil, parseUnsigned_eq, takeWhileAll _ _ hd,
      List.drop_length, hfr]
    rfl
  · rw [if_neg hfr, parseUnsigned_eq]
    have hdot : ('.' :: frac).takeWhile Char.isDigit = [] := by
      rw [List.takeWhile_cons, if_neg]
      intro h
      exact absurd h (by decide)
    have htw : (ip ++ '.' :: frac).takeWhile Char.isDigit = ip := by
      rw [takeWhileAppendAll _ _ _ hd, hdot, List.append_nil]
    rw [htw, List.drop_left, List.tail_cons, takeWhileAll _ _ hfd]

theorem parseNumber_eq (cs : List Char) :
    parseNumber cs = if cs.head? = some '-' then -parseUnsigned cs.tail
      else parseUnsigned cs := rfl

theorem parseNumber_render (neg : Bool) (ip frac : List Char) (hip : ip ≠ [])
    (hd : ∀ c ∈ ip, c.isDigit = true) (hfd : ∀ c ∈ frac, c.isDigit = true) :
    parseNumber (decRender neg ip frac) = decValue neg ip frac := by
  cases neg with
  | false =>
    simp only [decRender, decValue, Bool.false_eq_true, if_false, List.nil_append, one_mul]
    rw [parseNumber_eq, if_neg (headAppendNeDash ip _ hip hd),
      parseUnsigned_body ip frac hip hd hfd]
  | true =>
    simp only [decRender, decValue, if_true, List.singleton_append, List.cons_append,
      List.nil_append, neg_one_mul]
    rw [parseNumber_eq, List.head?_cons, if_pos rfl, List.tail_cons,
      parseUnsigned_body ip frac hip hd hfd]

theorem extractTemp_eq (s : String) :
    extractTemp s = match firstNumMatch s.data with
      | some m => parseNumber m
      | none => 20 := rfl

/-- The extraction recovers the rendered temperature exactly: for a summary
built from a plain decimal rendering, the first regex match is that rendering
and parses back to its value. -/
theorem extractTemp_render (neg : Bool) (ip frac : List Char) (cond humStr : String)
    (hip : ip ≠ []) (hd : ∀ c ∈ ip, c.isDigit = true) (hfd : ∀ c ∈ frac, c.isDigit = true) :
    extractTemp (String.mk (decRender neg ip frac) ++ "°C, " ++ cond ++ ", " ++
      humStr ++ "% humidity") = decValue neg ip frac := by
  have hdata : (String.mk (decRender neg ip frac) ++ "°C, " ++ cond ++ ", " ++
      humStr ++ "% humidity").data = decRender neg ip frac ++
      ("°C, ".data ++ (cond.data ++ (", ".data ++ (humStr.data ++ "% humidity".data)))) := by
    simp [String.data_append, List.append_assoc]
  have hr0 : "°C, ".data ++ (cond.data ++ (", ".data ++ (humStr.data ++ "% humidity".data))) =
      '°' :: ("C, ".data ++ (cond.data ++ (", ".data ++ (humStr.data ++ "% humidity".data)))) :=
    rfl
  have hr : ("°C, ".data ++ (cond.data ++ (", ".data ++
      (humStr.data ++ "% humidity".data)))).takeWhile Char.isDigit = [] := by
    rw [hr0, List.takeWhile_cons, if_neg]
    intro h
    exact absurd h (by decide)
  have hrdot : ("°C, ".data ++ (cond.data ++ (", ".data ++
      (humStr.data ++ "% humidity".data)))).head? ≠ some '.' := by
    rw [hr0, List.head?_cons]
    intro h
    have : '°' = '.' := by injection h
    exact absurd this (by decide)
  rw [extractTemp_eq, hdata,
    firstNumMatch_render neg ip frac _ hip hd hfd hr hrdot]
  exact parseNumber_render neg ip frac hip hd hfd

/-- Claim C8: for a weatherSummary whose temperature is rendered in plain
decimal notation and whose condition is a decoder output label, the regex
re-parse recovers the raw temperature, so scoring by re-parsing the summary
equals the variant scorer applied to the raw numeric temperature. -/
theorem scoreOf_summary_eq_raw (neg : Bool) (ip frac : List Char) (cond humStr : String)
    (hip : ip ≠ []) (hd : ∀ c ∈ ip, c.isDigit = true) (hfd : ∀ c ∈ frac, c.isDigit = true)
    (_hcond : cond ∈ decoderOutputs) :
    extractTemp (String.mk (decRender neg ip frac) ++ "°C, " ++ cond ++ ", " ++
      humStr ++ "% humidity") = decValue neg ip frac ∧
    scoreOf (String.mk (decRender neg ip frac) ++ "°C, " ++ cond ++ ", " ++
      humStr ++ "% humidity") = scoreFromTemp (decValue neg ip frac)
      (String.mk (decRender neg ip frac) ++ "°C, " ++ cond ++ ", " ++
        humStr ++ "% humidity") := by
  have h1 := extractTemp_render neg ip frac cond humStr hip hd hfd
  refine ⟨h1, ?_⟩
  have h2 : scoreOf (String.mk (decRender neg ip frac) ++ "°C, " ++ cond ++ ", " ++
      humStr ++ "% humidity") = scoreFromTemp
      (extractTemp (String.mk (decRender neg ip frac) ++ "°C, " ++ cond ++ ", " ++
        humStr ++ "% humidity"))
      (String.mk (decRender neg ip frac) ++ "°C, " ++ cond ++ ", " ++
        humStr ++ "% humidity") := rfl
  rw [h2, h1]

/-- Witness for C8: temperature 23.5 with condition "Clear sky". -/
theorem scoreOf_summary_eq_raw_witness :
    extractTemp (String.mk (decRender false ['2', '3'] ['5']) ++ "°C, " ++ "Clear sky" ++
      ", " ++ "50" ++ "% humidity") = decValue false ['2', '3'] ['5'] ∧
    scoreOf (String.mk (decRender false ['2', '3'] ['5']) ++ "°C, " ++ "Clear sky" ++
      ", " ++ "50" ++ "% humidity") = scoreFromTemp (decValue false ['2', '3'] ['5'])
      (String.mk (decRender false ['2', '3'] ['5']) ++ "°C, " ++ "Clear sky" ++
        ", " ++ "50" ++ "% humidity") :=
  scoreOf_summary_eq_raw false ['2', '3'] ['5'] "Clear sky" "50"
    (by decide) (by decide) (by decide) (by decide)

/- ### Fan-out orchestrator model.

Modelled from the spec: the implementation of the foreach combinator invoked
as .foreach(processSingleCityWorkflow, with concurrency 3) at line 266 lives
in the external workflow engine package, not in this repository; only its
call site is in the source. Section 4.5 of the specification describes it as
a scheduler that keeps at most 3 per-city pipelines in flight, starts the
next pending city when a slot frees, lets pipelines finish in any order, and
writes each result into the slot of its input index. The model below is a
nondeterministic labelled transition system with exactly those rules; f is
the per-city pipeline. -/

structure FanoutState (α β : Type) where
  pending : List (ℕ × α)
  running : List (ℕ × α)
  results : List (ℕ × β)

def initFanout {α β : Type} (inputs : List α) : FanoutState α β :=
  { pending := inputs.enum, running := [], results := [] }

inductive FanoutStep {α β : Type} (f : α → β) : FanoutState α β → FanoutState α β → Prop
  | start (i : ℕ) (a : α) (rest run : List (ℕ × α)) (res : List (ℕ × β)) :
      run.length < 3 →
      FanoutStep f ⟨(i, a) :: rest, run, res⟩ ⟨rest, run ++ [(i, a)], res⟩
  | finish (pend run₁ run₂ : List (ℕ × α)) (i : ℕ) (a : α) (res : List (ℕ × β)) :
      FanoutStep f ⟨pend, run₁ ++ (i, a) :: run₂, res⟩
        ⟨pend, run₁ ++ run₂, res ++ [(i, f a)]⟩

def FanoutReachable {α β : Type} (f : α → β) (inputs : List α) (s : FanoutState α β) : Prop :=
  Relation.ReflTransGen (FanoutStep f) (initFanout inputs) s

def collectResults {α β : Type} (s : FanoutState α β) (n : ℕ) : List (Option β) :=
  (List.range n).map (fun i => s.results.lookup i)

def FanoutInv {α β : Type} (f : α → β) (inputs : List α) (s : FanoutState α β) : Prop :=
  s.running.length ≤ 3 ∧
  ∃ d : List (ℕ × α), s.results = d.map (fun p => (p.1, f p.2)) ∧
    (s.pending ++ s.running ++ d).Perm inputs.enum

theorem fanoutInv_step {α β : Type} {f : α → β} {inputs : List α}
    {s s2 : FanoutState α β} (h : FanoutInv f inputs s) (hs : FanoutStep f s s2) :
    FanoutInv f inputs s2 := by
  obtain ⟨hb, d, hres, hperm⟩ := h
  cases hs with
  | start i a rest run res hlt =>
    refine ⟨by simp only [List.length_append, List.length_cons, List.length_nil]; omega,
      d, hres, ?_⟩
    have e1 : rest ++ (run ++ [(i, a)]) ++ d = (rest ++ run) ++ ((i, a) :: d) := by
      simp [List.append_assoc]
    rw [e1]
    exact List.Perm.trans List.perm_middle hperm
  | finish pend run₁ run₂ i a res =>
    have hres2 : res = d.map (fun p => (p.1, f p.2)) := by simpa using hres
    refine ⟨?_, d ++ [(i, a)], by simp [hres2], ?_⟩
    · simp only [List.length_append] at hb ⊢
      simp at hb
      omega
    · have h1 : ((run₁ ++ run₂) ++ (d ++ [(i, a)])).Perm ((run₁ ++ (i, a) :: run₂) ++ d) := by
        have a1 : (run₁ ++ run₂) ++ (d ++ [(i, a)]) = ((run₁ ++ run₂) ++ d) ++ [(i, a)] := by
          simp [List.append_assoc]
        have a2 : (((run₁ ++ run₂) ++ d) ++ [(i, a)]).Perm ((i, a) :: ((run₁ ++ run₂) ++ d)) :=
          List.perm_append_singleton _ _
        have a3 : ((run₁ ++ (i, a) :: run₂) ++ d).Perm (((i, a) :: (run₁ ++ run₂)) ++ d) :=
          List.Perm.append_right d List.perm_middle
        rw [a1]
        exact a2.trans a3.symm
      have e1 : pend ++ (run₁ ++ run₂) ++ (d ++ [(i, a)]) =
          pend ++ ((run₁ ++ run₂) ++ (d ++ [(i, a)])) := by
        simp [List.append_assoc]
      have e2 : pend ++ (run₁ ++ (i, a) :: run₂) ++ d =
          pend ++ ((run₁ ++ (i, a) :: run₂) ++ d) := by
        simp [List.append_assoc]
      rw [e2] at hperm
      rw [e1]
      exact (List.Perm.append_left pend h1).trans hperm

theorem fanoutInv_reachable {α β : Type} (f : α → β) (inputs : List α)
    (s : FanoutState α β) (h : FanoutReachable f inputs s) : FanoutInv f inputs s := by
  induction h with
  | refl =>
    refine ⟨by simp [initFanout], [], by simp [initFanout], ?_⟩
    simp only [initFanout, List.append_nil]
    exact List.Perm.refl _
  | tail hab hbc ih => exact fanoutInv_step ih hbc

theorem lookup_map_of_nodup {α β : Type} (f : α → β) (d : List (ℕ × α))
    (hnd : (d.map Prod.fst).Nodup) (i : ℕ) (a : α) (hmem : (i, a) ∈ d) :
    (d.map (fun p => (p.1, f p.2))).lookup i = some (f a) := by
  induction d with
  | nil => cases hmem
  | cons p d ih =>
    obtain ⟨j, b⟩ := p
    simp only [List.map_cons, List.nodup_cons] at hnd
    by_cases hij : i = j
    · subst hij
      have hab2 : a = b := by
        rcases List.mem_cons.mp hmem with h | h
        · exact (Prod.ext_iff.mp h).2
        · exact absurd (List.mem_map_of_mem Prod.fst h) hnd.1
      subst hab2
      simp [List.lookup_cons]
    · have hmem2 : (i, a) ∈ d := by
        rcases List.mem_cons.mp hmem with h | h
        · exact absurd (congrArg Prod.fst h) hij
        · exact h
      simp only [List.map_cons, List.lookup_cons, beq_eq_false_iff_ne.mpr hij]
      exact ih hnd.2 hmem2

theorem collect_terminal {α β : Type} (f : α → β) (inputs : List α)
    (s : FanoutState α β) (hreach : FanoutReachable f inputs s)
    (hp : s.pending = []) (hr : s.running = []) :
    collectResults s inputs.length = inputs.map (fun a => some (f a)) := by
  obtain ⟨-, d, hres, hperm⟩ := fanoutInv_reachable f inputs s hreach
  rw [hp, hr] at hperm
  simp only [List.nil_append] at hperm
  have hnd : (d.map Prod.fst).Nodup := by
    have h2 : (d.map Prod.fst).Perm (inputs.enum.map Prod.fst) := hperm.map Prod.fst
    rw [List.enum_map_fst] at h2
    exact h2.nodup_iff.mpr (List.nodup_range _)
  apply List.ext_getElem
  · simp [collectResults]
  · intro n h1 h2
    have hn : n < inputs.length := by
      simpa [collectResults] using h1
    have hmem : (n, inputs[n]) ∈ inputs.enum := by
      have := List.getElem_enum inputs n (by simpa [List.enum_length] using hn)
      rw [← this]
      exact List.getElem_mem _
    have hmemd : (n, inputs[n]) ∈ d := hperm.mem_iff.mpr hmem
    have hlook := lookup_map_of_nodup f d hnd n inputs[n] hmemd
    simp only [collectResults, List.getElem_map, List.getElem_range]
    rw [hres]
    exact hlook

/-- Claim C10 (spec-modelled): under the bounded fan-out scheduler every
reachable state has at most 3 pipelines in flight; every terminal reachable
state collects, at slot i, the pipeline output of input i, so the result
sequence is the input order image of the pipeline regardless of completion
order; and the empty input collects the empty sequence. -/
theorem fanout_spec {α β : Type} (f : α → β) (inputs : List α) (s : FanoutState α β)
    (hreach : FanoutReachable f inputs s) :
    s.running.length ≤ 3 ∧
    (s.pending = [] → s.running = [] →
      collectResults s inputs.length = inputs.map (fun a => some (f a))) ∧
    (inputs = [] → collectResults s inputs.length = []) := by
  refine ⟨(fanoutInv_reachable f inputs s hreach).1,
    fun hp hr => collect_terminal f inputs s hreach hp hr, ?_⟩
  intro he
  subst he
  rfl

/-- Witness for C10: input [5] with the successor pipeline, run to the
terminal state along an explicit schedule. -/
theorem fanout_spec_witness :
    (FanoutState.mk [] [] [(0, 6)] : FanoutState ℕ ℕ).running.length ≤ 3 ∧
    collectResults (FanoutState.mk [] [] [(0, 6)] : FanoutState ℕ ℕ) 1 = [some 6] := by
  have hstep1 : FanoutStep (fun n : ℕ => n + 1) (initFanout [5]) ⟨[], [(0, 5)], []⟩ :=
    FanoutStep.start 0 5 [] [] [] (by norm_num)
  have hstep2 : FanoutStep (fun n : ℕ => n + 1) ⟨[], [(0, 5)], []⟩ ⟨[], [], [(0, 6)]⟩ :=
    FanoutStep.finish [] [] [] 0 5 []
  have hreach : FanoutReachable (fun n : ℕ => n + 1) [5] ⟨[], [], [(0, 6)]⟩ :=
    Relation.ReflTransGen.tail (Relation.ReflTransGen.tail Relation.ReflTransGen.refl hstep1)
      hstep2
  have h := fanout_spec (fun n : ℕ => n + 1) [5] ⟨[], [], [(0, 6)]⟩ hreach
  exact ⟨h.1, (h.2.1 rfl rfl).trans rfl⟩
